import Mathlib

/-!
Verification development for the video-cache module (`src/videoCache.js`).

The JavaScript source is shallowly embedded: each exported function becomes
a Lean definition over explicit data.  JavaScript runtime conventions are
made explicit:

* an optional / possibly-`undefined` string field is `Option String`;
* string truthiness (`x ?`, `!x`) is `truthyStr` (`undefined` and `""` are
  the falsy strings);
* interpolation of a possibly-`undefined` value into a template literal is
  `jsToString` (`undefined` prints as `"undefined"`);
* a JavaScript `Error` value is modelled by its name and message, and its
  template-literal rendering is `JsError.display` (`name ++ ": " ++ message`);
* the process-wide `Map` used for the local VAST cache is modelled as a
  function `String → Option String`;
* network and timer effects are modelled by passing the outcome of the
  effect (`TransportOutcome`, flush events) explicitly.
-/

namespace VideoCache

/-- `impTrackerURLs` as received by `wrapURI`: `undefined`, a single string,
or an array of strings (the three shapes the source normalizes). -/
inductive ImpTrackers where
  | undef : ImpTrackers
  | str (s : String) : ImpTrackers
  | arr (l : List String) : ImpTrackers
deriving DecidableEq, Repr

/-- JavaScript string truthiness for an optional string field:
`undefined` and the empty string are falsy. -/
def truthyStr : Option String → Bool
  | none => false
  | some s => s ≠ ""

/-- Template-literal rendering of a possibly-`undefined` string
(`undefined` interpolates as the text `undefined`). -/
def jsToString : Option String → String
  | none => "undefined"
  | some s => s

/-- A bid as seen by this module: only the fields the source reads or
writes.  Optional fields are `Option`-valued. -/
structure Bid where
  vastXml : Option String := none
  vastUrl : Option String := none
  vastImpUrl : ImpTrackers := .undef
  ttl : Int := 0
  bidder : String := ""
  requestId : String := ""
  auctionId : String := ""
  customCacheKey : Option String := none
  videoCacheKey : Option String := none
  bidderCode : String := ""
  adId : String := ""
deriving DecidableEq, Repr

/-- The slice of the configuration store this module reads
(`cache.url`, `cache.vasttrack`, `cache.batchSize`, `cache.batchTimeout`,
`cache.useLocal`).  A numeric setting that is absent or not a number is
`none`. -/
structure CacheConfig where
  url : String := ""
  vasttrack : Bool := false
  batchSize : Option Int := none
  batchTimeout : Option Int := none
  useLocal : Bool := false
deriving DecidableEq, Repr

/-- An auction as consulted by `toStorageRequest`: only `getAuctionStart`
is used. -/
structure Auction where
  auctionStart : Int
deriving DecidableEq, Repr

/-- `index.getAuction(bid)`: resolves a bid to its auction, or `none`. -/
def AuctionIndex := Bid → Option Auction

/-- Source line 22: `const ttlBufferInSeconds = 15;`. -/
def ttlBufferInSeconds : Int := 15

/-- Source lines 47-48: normalization of `impTrackerURLs`
(`impTrackerURLs && (Array.isArray(impTrackerURLs) ? impTrackerURLs : [impTrackerURLs])`).
A falsy value (`undefined` or `""`) yields no tracker list. -/
def normalizeImpTrackers : ImpTrackers → Option (List String)
  | .undef => none
  | .str s => if s = "" then none else some [s]
  | .arr l => some l

/-- Source line 52: one `<Impression>` element per tracker. -/
def impressionElem (trk : String) : String :=
  "<Impression><![CDATA[" ++ trk ++ "]]></Impression>"

/-- The part of the `wrapURI` template before the impressions slot
(source lines 53-57 plus the indentation before `${impressions}`). -/
def vastWrapperHead (uri : String) : String :=
  "<VAST version=\"3.0\">\n    <Ad>\n      <Wrapper>\n        <AdSystem>prebid.org wrapper</AdSystem>\n        <VASTAdTagURI><![CDATA[" ++ uri ++ "]]></VASTAdTagURI>\n        "

/-- The part of the `wrapURI` template after the impressions slot
(source lines 58-62). -/
def vastWrapperTail : String :=
  "\n        <Creatives></Creatives>\n      </Wrapper>\n    </Ad>\n  </VAST>"

/-- Source lines 47-63, `wrapURI(uri, impTrackerURLs)`: wraps a URI in a
VAST 3.0 wrapper document, with one impression element per tracker. -/
def wrapURI (uri : String) (impTrackerURLs : ImpTrackers) : String :=
  let impressions :=
    match normalizeImpTrackers impTrackerURLs with
    | none => ""
    | some trks => String.join (trks.map impressionElem)
  vastWrapperHead uri ++ impressions ++ vastWrapperTail

/-- Source lines 147-149, `getVastValue(bid)`:
`bid.vastXml ? bid.vastXml : wrapURI(bid.vastUrl, bid.vastImpUrl)`. -/
def getVastValue (bid : Bid) : String :=
  if truthyStr bid.vastXml then jsToString bid.vastXml
  else wrapURI (jsToString bid.vastUrl) bid.vastImpUrl

/-- The payload sent to the cache server for one bid (source lines 82-102).
Fields added only under a condition are `Option`-valued. -/
structure StoragePayload where
  type : String
  value : String
  ttlseconds : Int
  bidder : Option String := none
  bidid : Option String := none
  aid : Option String := none
  timestamp : Option Int := none
  key : Option String := none
deriving DecidableEq, Repr

/-- Source lines 78-103, `toStorageRequest(bid, {index})`: builds the
storage payload for one bid. -/
def toStorageRequest (cfg : CacheConfig) (index : AuctionIndex) (bid : Bid) :
    StoragePayload :=
  let vastValue := getVastValue bid
  let auction := index bid
  let ttlWithBuffer := bid.ttl + ttlBufferInSeconds
  { type := "xml"
    value := vastValue
    ttlseconds := ttlWithBuffer
    bidder := if cfg.vasttrack then some bid.bidder else none
    bidid := if cfg.vasttrack then some bid.requestId else none
    aid := if cfg.vasttrack then some bid.auctionId else none
    timestamp := auction.map Auction.auctionStart
    key :=
      match bid.customCacheKey with
      | some s => if s ≠ "" then some s else none
      | none => none }

/-- Source lines 169-171, `getCacheUrl(id)`. -/
def getCacheUrl (cfg : CacheConfig) (id : String) : String :=
  cfg.url ++ "?uuid=" ++ id

/-- A JavaScript `Error` value: constructor name and message. -/
structure JsError where
  name : String
  message : String
deriving DecidableEq, Repr

/-- Template-literal rendering of an `Error` value (`${error}`). -/
def JsError.display (e : JsError) : String := e.name ++ ": " ++ e.message

/-- One element of the store response's `responses` array. -/
structure CacheId where
  uuid : String
deriving DecidableEq, Repr

/-- The outcome of `JSON.parse(responseBody).responses` on a success body:
the parse may throw (`parseFail`, carrying the engine's error value), or
produce a value whose `responses` field is an array (`parsed (some ids)`)
or absent / falsy (`parsed none`). -/
inductive ParsedBody where
  | parseFail (e : JsError) : ParsedBody
  | parsed (responses : Option (List CacheId)) : ParsedBody
deriving DecidableEq, Repr

/-- The outcome of the ajax transport for one store call: the success
handler is invoked with a body (modelled by its parse outcome), or the
error handler with a status text and raw body. -/
inductive TransportOutcome where
  | success (body : ParsedBody) : TransportOutcome
  | failure (statusText : String) (responseBody : String) : TransportOutcome
deriving DecidableEq, Repr

/-- `JSON.stringify` of a string value: wrap in quotes, escaping quote and
backslash characters (control-character escapes elided; no message proved
here depends on them). -/
def jsStringifyString (s : String) : String :=
  ⟨'"' :: (s.data.foldr
    (fun c acc => if c = '"' ∨ c = '\\' then '\\' :: c :: acc else c :: acc)
    ['"'])⟩

/-- Source lines 124-145, `shimStorageCallback(done)`: bridges the ajax
success/error handlers to the `done(error, uuids)` convention.  The
returned handler pair is modelled as a single function of the transport
outcome. -/
def shimStorageCallback {α : Type} (done : Option JsError → List CacheId → α) :
    TransportOutcome → α
  | .success body =>
    match body with
    | .parseFail e => done (some e) []
    | .parsed (some ids) => done none ids
    | .parsed none =>
        done (some ⟨"Error",
          "The cache server didn't respond with a responses property."⟩) []
  | .failure statusText responseBody =>
      done (some ⟨"Error",
        "Error storing video ad in the cache: " ++ statusText ++ ": "
          ++ jsStringifyString responseBody⟩) []

/-- The `(error, uuids)` pair the completion path receives for a given
transport outcome. -/
def shimResult (o : TransportOutcome) : Option JsError × List CacheId :=
  shimStorageCallback (fun e ids => (e, ids)) o

/-- A batch entry (source line 266): the triple pushed by `batchAndStore`.
The auction instance and the `afterBidAdded` callback are opaque to this
module and modelled as tokens. -/
structure BatchEntry where
  auctionInstance : Nat := 0
  bidResponse : Bid := {}
  afterBidAdded : Nat := 0
deriving DecidableEq, Repr

/-- The observable effect of running `storeBatch`'s completion callback:
the final state of each batch bid (in batch order), the
`addBidToAuction(auctionInstance, bidResponse)` calls in order, the
`afterBidAdded()` calls in order, and the logged errors and warnings. -/
structure StoreOutcome where
  bids : List Bid
  admitted : List (Nat × Bid)
  callbacks : List Nat
  errors : List String
  warnings : List String
deriving DecidableEq, Repr

/-- Source line 221: the warning logged for an empty-string uuid. -/
def rejectedKeyWarning : String :=
  "Supplied video cache key was already in use by Prebid Cache; caching attempt was rejected. Video bid must be discarded."

/-- Source lines 223-226: the bid after a non-empty cache id is attributed
to it (`videoCacheKey` assigned; `vastUrl` derived from the id when the
bid's own `vastUrl` is falsy). -/
def cachedBid (cfg : CacheConfig) (bid : Bid) (uuid : String) : Bid :=
  let b1 := { bid with videoCacheKey := some uuid }
  if truthyStr b1.vastUrl then b1
  else { b1 with vastUrl := some (getCacheUrl cfg uuid) }

/-- One iteration of the `cacheIds.forEach` loop in `storeBatch`
(source lines 218-230), accumulating the observable effects. -/
def storeBatchStep (cfg : CacheConfig) (acc : StoreOutcome)
    (p : BatchEntry × CacheId) : StoreOutcome :=
  if p.2.uuid = "" then
    { acc with
      bids := acc.bids ++ [p.1.bidResponse]
      warnings := acc.warnings ++ [rejectedKeyWarning] }
  else
    let b := cachedBid cfg p.1.bidResponse p.2.uuid
    { acc with
      bids := acc.bids ++ [b]
      admitted := acc.admitted ++ [(p.1.auctionInstance, b)]
      callbacks := acc.callbacks ++ [p.1.afterBidAdded] }

/-- Source lines 212-231: the completion callback `storeBatch` passes to
`store`.  On an error, or on a count mismatch, the batch is discarded with
a logged error; otherwise each (entry, id) pair is processed in order. -/
def storeBatchCallback (cfg : CacheConfig) (batch : List BatchEntry)
    (error : Option JsError) (cacheIds : List CacheId) : StoreOutcome :=
  match error with
  | some e =>
      { bids := batch.map BatchEntry.bidResponse
        admitted := []
        callbacks := []
        errors := ["Failed to save to the video cache: " ++ e.display
          ++ ". Video bids will be discarded:"]
        warnings := [] }
  | none =>
      if batch.length ≠ cacheIds.length then
        { bids := batch.map BatchEntry.bidResponse
          admitted := []
          callbacks := []
          errors := ["expected " ++ toString batch.length ++ " cache IDs, got "
            ++ toString cacheIds.length ++ " instead"]
          warnings := [] }
      else
        (batch.zip cacheIds).foldl (storeBatchStep cfg)
          { bids := [], admitted := [], callbacks := [], errors := [], warnings := [] }

/-- Source lines 207-233, `storeBatch(batch)` composed with the transport:
`store` wraps the completion callback via `shimStorageCallback`, so the
observable effect of a flush whose transport produced `o` is the
completion callback run on the shimmed result. -/
def storeBatch (cfg : CacheConfig) (batch : List BatchEntry)
    (o : TransportOutcome) : StoreOutcome :=
  shimStorageCallback (storeBatchCallback cfg batch) o

/-- The bid produced at one position of a successful, count-matched flush. -/
def entryFinalBid (cfg : CacheConfig) (p : BatchEntry × CacheId) : Bid :=
  if p.2.uuid = "" then p.1.bidResponse else cachedBid cfg p.1.bidResponse p.2.uuid

/-- The `addBidToAuction` contribution of one position (none for the
empty-uuid sentinel). -/
def entryAdmit (cfg : CacheConfig) (p : BatchEntry × CacheId) :
    Option (Nat × Bid) :=
  if p.2.uuid = "" then none
  else some (p.1.auctionInstance, cachedBid cfg p.1.bidResponse p.2.uuid)

/-- The `afterBidAdded` contribution of one position. -/
def entryCallback (p : BatchEntry × CacheId) : Option Nat :=
  if p.2.uuid = "" then none else some p.1.afterBidAdded

/-- The warning contribution of one position. -/
def entryWarning (p : BatchEntry × CacheId) : Option String :=
  if p.2.uuid = "" then some rejectedKeyWarning else none

/-- The base64 alphabet, indexed 0-63. -/
def base64Chars : List Char :=
  "ABCDEFGHIJKLMNOPQRSTUVWXYZabcdefghijklmnopqrstuvwxyz0123456789+/".data

/-- The base64 digit for a 6-bit value. -/
def b64Digit (n : Nat) : Char := base64Chars.getD n '?'

/-- Base64 encoding of a byte sequence, three bytes at a time, with `=`
padding. -/
def b64EncodeBytes : List Nat → List Char
  | [] => []
  | [b1] => [b64Digit (b1 / 4), b64Digit (b1 % 4 * 16), '=', '=']
  | [b1, b2] =>
      [b64Digit (b1 / 4), b64Digit (b1 % 4 * 16 + b2 / 16),
        b64Digit (b2 % 16 * 4), '=']
  | b1 :: b2 :: b3 :: rest =>
      b64Digit (b1 / 4) :: b64Digit (b1 % 4 * 16 + b2 / 16)
        :: b64Digit (b2 % 16 * 4 + b3 / 64) :: b64Digit (b3 % 64)
        :: b64EncodeBytes rest

/-- The browser's `btoa`: base64 of the string's code points (the source
only feeds it VAST text; characters are taken as their code). -/
def btoa (s : String) : String := ⟨b64EncodeBytes (s.data.map Char.toNat)⟩

/-- The process-scoped `vastsLocalCache` map, as a lookup function. -/
def LocalCache := String → Option String

/-- The empty map. -/
def emptyLocalCache : LocalCache := fun _ => none

/-- `Map.prototype.set` (last store wins). -/
def mapSet (k v : String) (m : LocalCache) : LocalCache :=
  fun x => if x = k then some v else m x

/-- `Map.prototype.delete`. -/
def mapDelete (k : String) (m : LocalCache) : LocalCache :=
  fun x => if x = k then none else m x

/-- Source line 67. -/
def LOCAL_CACHE_MOCK_URL : String := "https://local.prebid.org/cache?bidder="

/-- Source line 201, `getLocalCacheBidId(bid)`. -/
def getLocalCacheBidId (bid : Bid) : String :=
  bid.bidderCode ++ "_" ++ bid.adId

/-- Source lines 173-179, `storeLocally(bid)`: returns the mutated bid and
the updated map. -/
def storeLocally (bid : Bid) (cache : LocalCache) : Bid × LocalCache :=
  let vastValue := getVastValue bid
  let dataUri := "data:text/xml;base64," ++ btoa vastValue
  let bid' := { bid with vastUrl := some dataUri }
  (bid', mapSet (getLocalCacheBidId bid) dataUri cache)

/-- Replace the first occurrence of `pat` in the list, if any (the
semantics of `String.prototype.replace` with a string pattern).  The
`$`-substitution patterns of the replacement string are not modelled: no
replacement value in this module (a data URI or the text `undefined`)
contains `$`. -/
def replaceFirstAux (pat repl : List Char) : List Char → List Char
  | [] => []
  | c :: rest =>
      if pat.isPrefixOf (c :: rest) then repl ++ (c :: rest).drop pat.length
      else c :: replaceFirstAux pat repl rest

/-- `s.replace(pat, repl)` for string `pat` and string `repl`. -/
def replaceFirst (s pat repl : String) : String :=
  ⟨replaceFirstAux pat.data repl.data s.data⟩

/-- `s.replace(pat, repl)` where `repl` may be `undefined`
(`Map.prototype.get` on a missing key): the replacement value is converted
to a string, so `undefined` becomes the text `undefined`. -/
def jsReplace (s pat : String) (repl : Option String) : String :=
  replaceFirst s pat (jsToString repl)

/-- Source lines 181-199, `getLocalCachedBidWithGam(adTagUrl)`.  The URL
parsing (lines 182-185) recovers `hb_bidder` and `hb_adid` from the tag
URL's `cust_params`; they are taken here as parameters.  `fetched` is the
fetch outcome: `none` for a non-ok response (lines 188-191), `some doc`
for the fetched wrapper text. -/
def getLocalCachedBidWithGam (hb_bidder hb_adid : String)
    (fetched : Option String) (cache : LocalCache) : Option String :=
  match fetched with
  | none => none
  | some gamVastWrapper =>
      let bidVastDataUri := cache (hb_bidder ++ "_" ++ hb_adid)
      let mockUrl := LOCAL_CACHE_MOCK_URL ++ hb_bidder
      some (jsReplace gamVastWrapper mockUrl bidVastDataUri)

/-- Source lines 246-251: the auction-expiry handler deletes the local
cache entry of every bid the expired auction received. -/
def cleanupHandler (bidsReceived : List Bid) (cache : LocalCache) : LocalCache :=
  bidsReceived.foldl (fun m bid => mapDelete (getLocalCacheBidId bid) m) cache

/-- Source lines 238-240: the effective maximum batch size
(`typeof cache.batchSize === 'number' && cache.batchSize > 0 ? cache.batchSize : 1`;
`none` models a setting that is absent or not a number). -/
def effBatchSize (v : Option Int) : Int :=
  match v with
  | some n => if n > 0 then n else 1
  | none => 1

/-- Source lines 241-243: the effective debounce delay. -/
def effBatchTimeout (v : Option Int) : Int :=
  match v with
  | some n => if n > 0 then n else 0
  | none => 0

/-- The mutable state captured by the closure `batchingCache` returns
(source lines 256-257). -/
structure BatcherState where
  batches : List (List BatchEntry)
  debouncing : Bool
deriving DecidableEq, Repr

/-- `let batches = [[]]; let debouncing = false;`. -/
def initState : BatcherState := ⟨[[]], false⟩

/-- Source lines 262-266: append the entry to the last batch, opening a
new batch first when the last one is full.  The batch size is a count,
modelled as a natural number. -/
def pushEntry (batchSize : Nat) (bs : List (List BatchEntry))
    (e : BatchEntry) : List (List BatchEntry) :=
  let bs0 := if batchSize ≤ (bs.getLastD []).length then bs ++ [[]] else bs
  bs0.dropLast ++ [bs0.getLastD [] ++ [e]]

/-- Source lines 260-276: one call of the closure returned by
`batchingCache`.  With a positive `batchTimeout` the flush closure is
deferred (`timeout`), so the call only accumulates; with a
non-positive one `noTimeout` runs the flush closure immediately: every
accumulated batch is flushed and the state resets.  Returns the new
state and the batches flushed (in `storeBatch`-call order) during this
call. -/
def submitStep (batchSize : Nat) (batchTimeout : Int) (st : BatcherState)
    (e : BatchEntry) : BatcherState × List (List BatchEntry) :=
  let bs := pushEntry batchSize st.batches e
  if st.debouncing then (⟨bs, st.debouncing⟩, [])
  else if 0 < batchTimeout then (⟨bs, true⟩, [])
  else (initState, bs)

/-- A sequence of submissions from a given state, accumulating the
flushed batches. -/
def submitManyFrom (batchSize : Nat) (batchTimeout : Int)
    (es : List BatchEntry) (st : BatcherState)
    (acc : List (List BatchEntry)) : BatcherState × List (List BatchEntry) :=
  es.foldl
    (fun a e =>
      let r := submitStep batchSize batchTimeout a.1 e
      (r.1, a.2 ++ r.2))
    (st, acc)

/-- A sequence of submissions from the initial state. -/
def submitMany (batchSize : Nat) (batchTimeout : Int)
    (es : List BatchEntry) : BatcherState × List (List BatchEntry) :=
  submitManyFrom batchSize batchTimeout es initState []

/-- Source lines 270-274: the debounce window elapsing.  Every
accumulated batch is flushed independently (`batches.forEach(cache)`, one
`storeBatch` call per batch) and the state resets. -/
def flushWindow (st : BatcherState) : BatcherState × List (List BatchEntry) :=
  (initState, st.batches)

/-- The `forEach` fold acts position-wise: each position contributes its
own bid, admission, callback and warning, independently of the others. -/
theorem foldl_storeBatchStep (cfg : CacheConfig)
    (l : List (BatchEntry × CacheId)) (acc : StoreOutcome) :
    l.foldl (storeBatchStep cfg) acc =
      { bids := acc.bids ++ l.map (entryFinalBid cfg)
        admitted := acc.admitted ++ l.filterMap (entryAdmit cfg)
        callbacks := acc.callbacks ++ l.filterMap entryCallback
        errors := acc.errors
        warnings := acc.warnings ++ l.filterMap entryWarning } := by
  induction l generalizing acc with
  | nil => simp
  | cons p l ih =>
      rw [List.foldl_cons, ih]
      by_cases h : p.2.uuid = "" <;>
        simp [storeBatchStep, entryFinalBid, entryAdmit, entryCallback,
          entryWarning, h]

theorem dropLast_cons_ne_nil {c : Char} {l : List Char} (h : l ≠ []) :
    (c :: l).dropLast = c :: l.dropLast := by
  cases l with
  | nil => exact absurd rfl h
  | cons y zs => exact List.dropLast_cons₂

theorem prefix_dropLast {l y : List Char} (h : l <+: y)
    (hlen : l.length < y.length) : l <+: y.dropLast := by
  rw [List.prefix_iff_eq_take] at h ⊢
  rw [List.dropLast_eq_take, List.take_take]
  have hm : l.length ⊓ (y.length - 1) = l.length := by omega
  rw [hm]
  exact h

theorem replaceFirstAux_cons (pat repl : List Char) (c : Char)
    (rest : List Char) :
    replaceFirstAux pat repl (c :: rest) =
      if pat.isPrefixOf (c :: rest) then repl ++ (c :: rest).drop pat.length
      else c :: replaceFirstAux pat repl rest := rfl

/-- `replace` leaves a document without an occurrence of the pattern
unchanged. -/
theorem replaceFirstAux_no_match (pat repl : List Char) :
    ∀ l, ¬ pat <:+: l → replaceFirstAux pat repl l = l := by
  intro l
  induction l with
  | nil => intro _; rfl
  | cons c rest ih =>
      intro h
      have hnp : ¬ pat.isPrefixOf (c :: rest) = true := fun hp =>
        h (List.isPrefixOf_iff_prefix.mp hp).isInfix
      simp only [replaceFirstAux]
      rw [if_neg hnp, ih (fun hinf => h (List.infix_cons hinf))]

/-- `replace` on a document that starts with the pattern substitutes it. -/
theorem replaceFirstAux_head (pat repl b : List Char) (hne : pat ≠ []) :
    replaceFirstAux pat repl (pat ++ b) = repl ++ b := by
  cases pat with
  | nil => exact absurd rfl hne
  | cons p ps =>
      have hsplit : (p :: ps) ++ b = p :: (ps ++ b) := rfl
      have h1 : (p :: ps).isPrefixOf (p :: (ps ++ b)) = true :=
        List.isPrefixOf_iff_prefix.mpr (hsplit ▸ List.prefix_append (p :: ps) b)
      rw [hsplit, replaceFirstAux_cons, h1, if_pos rfl]
      have h2 : List.drop (p :: ps).length (p :: (ps ++ b)) = b := by
        rw [← hsplit]
        exact List.drop_left _ _
      rw [h2]

/-- `replace` substitutes exactly the first occurrence: on
`a ++ pat ++ b` where no occurrence of `pat` starts inside `a` (no
occurrence fits in `(a ++ pat).dropLast`), the result is `a ++ repl ++ b`. -/
theorem replaceFirstAux_append (pat repl b : List Char) (a : List Char)
    (h : ¬ pat <:+: (a ++ pat).dropLast) :
    replaceFirstAux pat repl (a ++ (pat ++ b)) = a ++ (repl ++ b) := by
  rcases hp : pat with _ | ⟨p, ps⟩
  · rw [hp] at h
    exact absurd List.nil_infix h
  · rw [← hp]
    have hpne : pat ≠ [] := by rw [hp]; exact List.cons_ne_nil _ _
    induction a with
    | nil => simpa using replaceFirstAux_head pat repl b hpne
    | cons c a' ih =>
        have hnp : ¬ pat.isPrefixOf (c :: (a' ++ (pat ++ b))) = true := by
          intro hpre
          rw [List.isPrefixOf_iff_prefix] at hpre
          have heq : ((c :: a') ++ pat) ++ b = c :: (a' ++ (pat ++ b)) := by
            simp [List.append_assoc]
          have hpre' : pat <+: ((c :: a') ++ pat) ++ b := by
            rw [heq]
            exact hpre
          have h1 : pat <+: (c :: a') ++ pat :=
            List.prefix_of_prefix_length_le hpre' (List.prefix_append _ _)
              (by simp only [List.length_append, List.length_cons]; omega)
          have h2 : pat <+: ((c :: a') ++ pat).dropLast :=
            prefix_dropLast h1
              (by simp only [List.length_append, List.length_cons]; omega)
          exact h h2.isInfix
        have h' : ¬ pat <:+: (a' ++ pat).dropLast := by
          intro hinf
          apply h
          have hne2 : a' ++ pat ≠ [] := by
            simp [hpne]
          rw [List.cons_append, dropLast_cons_ne_nil hne2]
          exact List.infix_cons hinf
        have hsplit : (c :: a') ++ (pat ++ b) = c :: (a' ++ (pat ++ b)) := rfl
        rw [hsplit, replaceFirstAux_cons, if_neg hnp, ih h']
        exact (List.cons_append _ _ _).symm

/-- With a positive debounce delay, submissions only accumulate: the
state's batches evolve by `pushEntry` and nothing is flushed. -/
theorem submitManyFrom_pos (k : Nat) (t : Int) (ht : 0 < t)
    (es : List BatchEntry) :
    ∀ bs d acc,
      (submitManyFrom k t es ⟨bs, d⟩ acc).1.batches
          = es.foldl (pushEntry k) bs
        ∧ (submitManyFrom k t es ⟨bs, d⟩ acc).2 = acc := by
  induction es with
  | nil => exact fun bs d acc => ⟨rfl, rfl⟩
  | cons e es ih =>
      intro bs d acc
      have hstep : submitStep k t ⟨bs, d⟩ e = (⟨pushEntry k bs e, true⟩, []) := by
        cases d <;> simp [submitStep, ht]
      show (submitManyFrom k t es (submitStep k t ⟨bs, d⟩ e).1
            (acc ++ (submitStep k t ⟨bs, d⟩ e).2)).1.batches
          = (e :: es).foldl (pushEntry k) bs
        ∧ (submitManyFrom k t es (submitStep k t ⟨bs, d⟩ e).1
            (acc ++ (submitStep k t ⟨bs, d⟩ e).2)).2 = acc
      rw [hstep]
      simpa using ih (pushEntry k bs e) true acc

/-- Appending an entry keeps every accumulated batch within the size
bound (the claim needs `1 ≤ k` so that a freshly opened batch's single
entry fits). -/
theorem pushEntry_allLe (k : Nat) (hk : 1 ≤ k) (bs : List (List BatchEntry))
    (e : BatchEntry) (h : ∀ b ∈ bs, b.length ≤ k) :
    ∀ b ∈ pushEntry k bs e, b.length ≤ k := by
  intro b hb
  unfold pushEntry at hb
  by_cases hc : k ≤ (bs.getLastD []).length
  · simp only [if_pos hc] at hb
    rcases List.mem_append.mp hb with hb1 | hb2
    · have hbs : b ∈ bs ++ [[]] := (List.dropLast_sublist _).subset hb1
      rcases List.mem_append.mp hbs with hb3 | hb4
      · exact h b hb3
      · simp at hb4
        simp [hb4]
    · have hb2' : b = (bs ++ [[]]).getLastD [] ++ [e] := by simpa using hb2
      rw [hb2', List.getLastD_concat]
      simpa using hk
  · simp only [if_neg hc] at hb
    rcases List.mem_append.mp hb with hb1 | hb2
    · exact h b ((List.dropLast_sublist _).subset hb1)
    · have hb2' : b = bs.getLastD [] ++ [e] := by simpa using hb2
      rw [hb2']
      simp only [List.length_append, List.length_cons, List.length_nil]
      omega

/-- `pushEntry` on a state of the shape `front ++ [current]`. -/
theorem pushEntry_shape (k : Nat) (F : List (List BatchEntry))
    (cur : List BatchEntry) (e : BatchEntry) :
    pushEntry k (F ++ [cur]) e =
      if k ≤ cur.length then (F ++ [cur]) ++ [[e]] else F ++ [cur ++ [e]] := by
  unfold pushEntry
  rw [List.getLastD_concat]
  by_cases hc : k ≤ cur.length
  · rw [if_pos hc, if_pos hc]
    simp only [List.dropLast_concat, List.getLastD_concat]
    simp
  · rw [if_neg hc, if_neg hc]
    simp only [List.dropLast_concat, List.getLastD_concat]

/-- Folding submissions over `pushEntry` keeps the `front ++ [current]`
shape, keeps every batch within the bound, and grows the entry count by
one per submission: `k * |front| + |current|` counts the entries. -/
theorem foldl_pushEntry_inv (k : Nat) (hk : 1 ≤ k) (es : List BatchEntry) :
    ∀ F cur, (∀ b ∈ F, b.length ≤ k) → cur.length ≤ k →
      ∃ F' cur',
        es.foldl (pushEntry k) (F ++ [cur]) = F' ++ [cur']
          ∧ (∀ b ∈ F', b.length ≤ k)
          ∧ cur'.length ≤ k
          ∧ k * F'.length + cur'.length
              = k * F.length + cur.length + es.length
          ∧ ((es ≠ [] ∨ 1 ≤ cur.length) → 1 ≤ cur'.length) := by
  induction es with
  | nil =>
      intro F cur hF hcur
      exact ⟨F, cur, rfl, hF, hcur, by simp, by
        rintro (hne | h1)
        · exact absurd rfl hne
        · exact h1⟩
  | cons e es ih =>
      intro F cur hF hcur
      rw [List.foldl_cons, pushEntry_shape]
      by_cases hc : k ≤ cur.length
      · rw [if_pos hc]
        have hcurk : cur.length = k := le_antisymm hcur hc
        have hF' : ∀ b ∈ F ++ [cur], b.length ≤ k := by
          intro b hb
          rcases List.mem_append.mp hb with hb1 | hb2
          · exact hF b hb1
          · simp at hb2
            rw [hb2]
            exact hcur
        obtain ⟨F', cur', heq, hFle, hcle, hcount, hpos⟩ :=
          ih (F ++ [cur]) [e] hF' (by simpa using hk)
        refine ⟨F', cur', heq, hFle, hcle, ?_, fun _ => hpos (Or.inr (by simp))⟩
        rw [hcount]
        simp only [List.length_append, List.length_cons, List.length_nil]
        rw [hcurk]
        ring
      · rw [if_neg hc]
        obtain ⟨F', cur', heq, hFle, hcle, hcount, hpos⟩ :=
          ih F (cur ++ [e]) hF (by
            simp only [List.length_append, List.length_cons, List.length_nil]
            omega)
        refine ⟨F', cur', heq, hFle, hcle, ?_,
          fun _ => hpos (Or.inr (by simp))⟩
        rw [hcount]
        simp only [List.length_append, List.length_cons, List.length_nil]
        ring

/-- For any timeout, submissions keep every accumulated batch within the
size bound. -/
theorem submitManyFrom_allLe (k : Nat) (hk : 1 ≤ k) (t : Int)
    (es : List BatchEntry) :
    ∀ st acc, (∀ b ∈ st.batches, b.length ≤ k) →
      ∀ b ∈ (submitManyFrom k t es st acc).1.batches, b.length ≤ k := by
  induction es with
  | nil => exact fun st acc h => h
  | cons e es ih =>
      intro st acc h
      show ∀ b ∈ (submitManyFrom k t es (submitStep k t st e).1
          (acc ++ (submitStep k t st e).2)).1.batches, b.length ≤ k
      refine ih ((submitStep k t st e).1) (acc ++ (submitStep k t st e).2) ?_
      intro b hb
      by_cases hd : st.debouncing
      · exact pushEntry_allLe k hk st.batches e h b
          (by simpa [submitStep, hd] using hb)
      · by_cases htp : 0 < t
        · exact pushEntry_allLe k hk st.batches e h b
            (by simpa [submitStep, hd, htp] using hb)
        · have hb' : b = ([] : List BatchEntry) := by
            simpa [submitStep, hd, htp, initState] using hb
          simp [hb']

/-- With batch size 1 and timeout 0, every submission flushes one batch
holding just the submitted entry and resets the state. -/
theorem submitManyFrom_sync (es : List BatchEntry) :
    ∀ acc, submitManyFrom 1 0 es initState acc
      = (initState, acc ++ es.map (fun e => [e])) := by
  induction es with
  | nil => intro acc; simp [submitManyFrom]
  | cons e es ih =>
      intro acc
      have hstep : submitStep 1 0 initState e = (initState, [[e]]) := rfl
      show submitManyFrom 1 0 es (submitStep 1 0 initState e).1
          (acc ++ (submitStep 1 0 initState e).2)
        = (initState, acc ++ (e :: es).map (fun e => [e]))
      rw [hstep]
      rw [ih (acc ++ [[e]])]
      simp

/-- The expiry handler's pointwise effect: a key is dropped exactly when
it is one of the expired auction's bid keys. -/
theorem cleanupHandler_apply (bids : List Bid) (m : LocalCache) (k : String) :
    cleanupHandler bids m k =
      if k ∈ bids.map getLocalCacheBidId then none else m k := by
  induction bids generalizing m with
  | nil => simp [cleanupHandler]
  | cons b bs ih =>
      show cleanupHandler bs (mapDelete (getLocalCacheBidId b) m) k = _
      rw [ih]
      by_cases hk : k ∈ bs.map getLocalCacheBidId
      · simp [hk]
      · by_cases he : k = getLocalCacheBidId b <;> simp [mapDelete, hk, he]

end VideoCache

namespace VideoCache

/-- C3: For every bid, the `ttlseconds` field of the storage payload
produced by `toStorageRequest` equals `bid.ttl + 15`. -/
theorem toStorageRequest_ttlseconds (cfg : CacheConfig) (index : AuctionIndex)
    (bid : Bid) : (toStorageRequest cfg index bid).ttlseconds = bid.ttl + 15 :=
  rfl

/-- C5: `wrapURI uri` with no impression trackers yields the wrapper
document with the URI in a CDATA-protected `VASTAdTagURI` element, an empty
impressions slot, and an (empty) `Creatives` element in the tail; with
trackers `[t1, t2]` the impressions slot holds exactly the two `Impression`
elements in order `t1` then `t2`; and the function is deterministic. -/
theorem wrapURI_spec (uri t1 t2 : String) (ts : ImpTrackers) :
    wrapURI uri .undef = vastWrapperHead uri ++ "" ++ vastWrapperTail
      ∧ wrapURI uri (.arr [t1, t2]) =
        vastWrapperHead uri ++ (impressionElem t1 ++ impressionElem t2)
          ++ vastWrapperTail
      ∧ impressionElem t1 = "<Impression><![CDATA[" ++ t1 ++ "]]></Impression>"
      ∧ vastWrapperHead uri =
        "<VAST version=\"3.0\">\n    <Ad>\n      <Wrapper>\n        <AdSystem>prebid.org wrapper</AdSystem>\n        <VASTAdTagURI><![CDATA["
          ++ uri ++ "]]></VASTAdTagURI>\n        "
      ∧ vastWrapperTail =
        "\n        " ++ "<Creatives></Creatives>"
          ++ "\n      </Wrapper>\n    </Ad>\n  </VAST>"
      ∧ wrapURI uri ts = wrapURI uri ts := by
  refine ⟨rfl, ?_, rfl, rfl, rfl, rfl⟩
  simp [wrapURI, normalizeImpTrackers, String.join, impressionElem,
    String.append_assoc]

/-- C1: When the store call succeeds but the returned identifier array's
length differs from the batch's length, `storeBatch` leaves every bid of
the batch unchanged (so none acquires a `videoCacheKey`), admits no bid,
invokes no completion callback, and logs exactly the error naming the
expected and actual counts. -/
theorem storeBatch_countMismatch (cfg : CacheConfig) (batch : List BatchEntry)
    (cacheIds : List CacheId) (h : batch.length ≠ cacheIds.length) :
    storeBatch cfg batch (.success (.parsed (some cacheIds))) =
      { bids := batch.map BatchEntry.bidResponse
        admitted := []
        callbacks := []
        errors := ["expected " ++ toString batch.length ++ " cache IDs, got "
          ++ toString cacheIds.length ++ " instead"]
        warnings := [] } := by
  simp [storeBatch, shimStorageCallback, storeBatchCallback, h]

/-- Witness for C1: a batch of one entry answered by zero identifiers. -/
theorem storeBatch_countMismatch_witness :
    ([({} : BatchEntry)].length ≠ ([] : List CacheId).length)
      ∧ storeBatch {} [{}] (.success (.parsed (some []))) =
        { bids := [({} : Bid)]
          admitted := []
          callbacks := []
          errors := ["expected 1 cache IDs, got 0 instead"]
          warnings := [] } := by
  refine ⟨by decide, ?_⟩
  rw [storeBatch_countMismatch {} [{}] [] (by decide)]
  rfl

/-- C2: On a successful flush whose identifier count equals the batch
size, the outcome is position-wise: position `i` with the empty-string
sentinel keeps its bid unchanged, contributes no admission and no
callback, only the warning; position `i` with a non-empty identifier gets
it as `videoCacheKey`, has `vastUrl` replaced by the retrieval URL exactly
when the bid's own `vastUrl` was falsy, is admitted, and has its
completion callback invoked.  The admission/callback/warning lists are the
concatenations of these independent per-position contributions, so no
position affects any other. -/
theorem storeBatch_success_pointwise (cfg : CacheConfig)
    (batch : List BatchEntry) (cacheIds : List CacheId)
    (h : batch.length = cacheIds.length) (i : Nat) (hi : i < batch.length) :
    (storeBatch cfg batch (.success (.parsed (some cacheIds)))).errors = []
      ∧ (storeBatch cfg batch (.success (.parsed (some cacheIds)))).bids.get? i
          = some (entryFinalBid cfg (batch.get ⟨i, hi⟩, cacheIds.get ⟨i, h ▸ hi⟩))
      ∧ (storeBatch cfg batch (.success (.parsed (some cacheIds)))).admitted
          = (batch.zip cacheIds).filterMap (entryAdmit cfg)
      ∧ (storeBatch cfg batch (.success (.parsed (some cacheIds)))).callbacks
          = (batch.zip cacheIds).filterMap entryCallback
      ∧ (storeBatch cfg batch (.success (.parsed (some cacheIds)))).warnings
          = (batch.zip cacheIds).filterMap entryWarning
      ∧ ((cacheIds.get ⟨i, h ▸ hi⟩).uuid = "" →
          entryFinalBid cfg (batch.get ⟨i, hi⟩, cacheIds.get ⟨i, h ▸ hi⟩)
              = (batch.get ⟨i, hi⟩).bidResponse
            ∧ entryAdmit cfg (batch.get ⟨i, hi⟩, cacheIds.get ⟨i, h ▸ hi⟩) = none
            ∧ entryCallback (batch.get ⟨i, hi⟩, cacheIds.get ⟨i, h ▸ hi⟩) = none
            ∧ entryWarning (batch.get ⟨i, hi⟩, cacheIds.get ⟨i, h ▸ hi⟩)
              = some rejectedKeyWarning)
      ∧ ((cacheIds.get ⟨i, h ▸ hi⟩).uuid ≠ "" →
          (entryFinalBid cfg (batch.get ⟨i, hi⟩, cacheIds.get ⟨i, h ▸ hi⟩)).videoCacheKey
              = some (cacheIds.get ⟨i, h ▸ hi⟩).uuid
            ∧ (entryFinalBid cfg (batch.get ⟨i, hi⟩, cacheIds.get ⟨i, h ▸ hi⟩)).vastUrl
              = (if truthyStr (batch.get ⟨i, hi⟩).bidResponse.vastUrl
                 then (batch.get ⟨i, hi⟩).bidResponse.vastUrl
                 else some (getCacheUrl cfg (cacheIds.get ⟨i, h ▸ hi⟩).uuid))
            ∧ ((batch.get ⟨i, hi⟩).auctionInstance,
                  entryFinalBid cfg (batch.get ⟨i, hi⟩, cacheIds.get ⟨i, h ▸ hi⟩))
                ∈ (storeBatch cfg batch (.success (.parsed (some cacheIds)))).admitted
            ∧ (batch.get ⟨i, hi⟩).afterBidAdded
                ∈ (storeBatch cfg batch (.success (.parsed (some cacheIds)))).callbacks) := by
  have hout : storeBatch cfg batch (.success (.parsed (some cacheIds)))
      = { bids := (batch.zip cacheIds).map (entryFinalBid cfg)
          admitted := (batch.zip cacheIds).filterMap (entryAdmit cfg)
          callbacks := (batch.zip cacheIds).filterMap entryCallback
          errors := []
          warnings := (batch.zip cacheIds).filterMap entryWarning } := by
    simp [storeBatch, shimStorageCallback, storeBatchCallback, h,
      foldl_storeBatchStep]
  have hzlen : i < (batch.zip cacheIds).length := by
    simp [List.length_zip]; omega
  simp only [List.get_eq_getElem]
  have hmem : (batch[i], cacheIds[i]) ∈ batch.zip cacheIds := by
    have : (batch.zip cacheIds).get ⟨i, hzlen⟩ = (batch[i], cacheIds[i]) := by
      simp [List.get_eq_getElem, List.getElem_zip]
    rw [← this]; exact List.get_mem _ _ _
  refine ⟨by rw [hout], ?_, by rw [hout], by rw [hout], by rw [hout], ?_, ?_⟩
  · rw [hout]
    simp only [List.get?_eq_getElem?]
    rw [List.getElem?_map, List.getElem?_eq_getElem hzlen]
    simp [List.getElem_zip]
  · intro he
    refine ⟨?_, ?_, ?_, ?_⟩ <;>
      simp [entryFinalBid, entryAdmit, entryCallback, entryWarning, he]
  · intro hne
    refine ⟨?_, ?_, ?_, ?_⟩
    · by_cases hv : truthyStr batch[i].bidResponse.vastUrl <;>
        simp [entryFinalBid, cachedBid, hne, hv]
    · by_cases hv : truthyStr batch[i].bidResponse.vastUrl <;>
        simp [entryFinalBid, cachedBid, hne, hv]
    · rw [hout]
      exact List.mem_filterMap.mpr ⟨_, hmem, by
        simp [entryAdmit, entryFinalBid, hne]⟩
    · rw [hout]
      exact List.mem_filterMap.mpr ⟨_, hmem, by simp [entryCallback, hne]⟩

/-- Witness for C2: a two-entry batch whose first identifier is the
sentinel and whose second is `"u2"`. -/
theorem storeBatch_success_pointwise_witness :
    (([({} : BatchEntry), { afterBidAdded := 7 }]).length
        = ([⟨""⟩, ⟨"u2"⟩] : List CacheId).length)
      ∧ (1 : Nat) < ([({} : BatchEntry), { afterBidAdded := 7 }]).length
      ∧ ((storeBatch {} [{}, { afterBidAdded := 7 }]
            (.success (.parsed (some [⟨""⟩, ⟨"u2"⟩])))).callbacks = [7]) := by
  refine ⟨by decide, by decide, ?_⟩
  have := (storeBatch_success_pointwise {} [{}, { afterBidAdded := 7 }]
    [⟨""⟩, ⟨"u2"⟩] (by decide) 1 (by decide)).2.2.2.1
  rw [this]
  decide

/-- C7: For a transport failure, an unparseable response body, or a parsed
body lacking a `responses` field, the completion path receives an error
together with an empty identifier list, every bid of the batch is left
unchanged, no bid is admitted, no completion callback runs, and an error
is logged. -/
theorem storeBatch_malformed_discards (cfg : CacheConfig)
    (batch : List BatchEntry) (o : TransportOutcome)
    (h : (match o with
          | .failure _ _ => true
          | .success (.parseFail _) => true
          | .success (.parsed none) => true
          | .success (.parsed (some _)) => false) = true) :
    (shimResult o).1.isSome = true ∧ (shimResult o).2 = []
      ∧ (storeBatch cfg batch o).bids = batch.map BatchEntry.bidResponse
      ∧ (storeBatch cfg batch o).admitted = []
      ∧ (storeBatch cfg batch o).callbacks = []
      ∧ (storeBatch cfg batch o).errors ≠ [] := by
  match o with
  | .failure st body =>
      simp [shimResult, shimStorageCallback, storeBatch, storeBatchCallback]
  | .success (.parseFail e) =>
      simp [shimResult, shimStorageCallback, storeBatch, storeBatchCallback]
  | .success (.parsed none) =>
      simp [shimResult, shimStorageCallback, storeBatch, storeBatchCallback]
  | .success (.parsed (some ids)) => simp at h

/-- C6: `toStorageRequest` and `storeLocally` resolve the identical VAST
content — `vastXml` verbatim when truthy (present and non-empty),
otherwise the wrapped `vastUrl` with the bid's `vastImpUrl` trackers —
and `storeLocally` writes into the bid's `vastUrl`, and stores under the
bid's local-cache key, exactly the base64 data URI of the content
`toStorageRequest` places in the payload's `value` field.  Other keys of
the map are untouched. -/
theorem storeLocally_matches_toStorageRequest (cfg : CacheConfig)
    (index : AuctionIndex) (bid : Bid) (cache : LocalCache) :
    (storeLocally bid cache).1.vastUrl
        = some ("data:text/xml;base64,"
            ++ btoa (toStorageRequest cfg index bid).value)
      ∧ (storeLocally bid cache).2 (getLocalCacheBidId bid)
        = some ("data:text/xml;base64,"
            ++ btoa (toStorageRequest cfg index bid).value)
      ∧ (toStorageRequest cfg index bid).value = getVastValue bid
      ∧ (truthyStr bid.vastXml = true →
          getVastValue bid = jsToString bid.vastXml)
      ∧ (truthyStr bid.vastXml = false →
          getVastValue bid = wrapURI (jsToString bid.vastUrl) bid.vastImpUrl)
      ∧ ∀ k, k ≠ getLocalCacheBidId bid →
          (storeLocally bid cache).2 k = cache k := by
  refine ⟨rfl, ?_, rfl, ?_, ?_, ?_⟩
  · simp [storeLocally, mapSet, toStorageRequest]
  · intro h
    simp [getVastValue, h]
  · intro h
    simp [getVastValue, h]
  · intro k hk
    simp [storeLocally, mapSet, hk]

/-- Witness for C6: the data URI stored for a URL-only bid is the base64
data URI of the payload value `toStorageRequest` computes for it. -/
theorem storeLocally_matches_toStorageRequest_witness :
    (storeLocally { vastUrl := some "http://x/vast.xml", bidderCode := "pb", adId := "a1" }
        emptyLocalCache).2
      (getLocalCacheBidId { vastUrl := some "http://x/vast.xml", bidderCode := "pb", adId := "a1" })
      = some ("data:text/xml;base64,"
          ++ btoa (toStorageRequest {} (fun _ => none)
              { vastUrl := some "http://x/vast.xml", bidderCode := "pb", adId := "a1" }).value) :=
  (storeLocally_matches_toStorageRequest {} (fun _ => none)
    { vastUrl := some "http://x/vast.xml", bidderCode := "pb", adId := "a1" }
    emptyLocalCache).2.1

/-- C8 fails as stated: when no local entry exists for the recovered
(bidder, adId) pair, the fetched document does not pass through
unchanged — `replace` substitutes the text `undefined` for the
placeholder.  Concretely, a fetched document equal to the placeholder
itself comes back as `"undefined"`. -/
theorem getLocalCachedBidWithGam_counterexample :
    getLocalCachedBidWithGam "pub" "ad1"
        (some (LOCAL_CACHE_MOCK_URL ++ "pub")) emptyLocalCache
      = some "undefined"
    ∧ getLocalCachedBidWithGam "pub" "ad1"
        (some (LOCAL_CACHE_MOCK_URL ++ "pub")) emptyLocalCache
      ≠ some (LOCAL_CACHE_MOCK_URL ++ "pub") := by
  constructor <;> decide

/-- C8 (amended): on a successfully fetched document, when a local cache
entry exists for the recovered (bidder, adId) pair the result is the
document with exactly the first occurrence of the placeholder
`LOCAL_CACHE_MOCK_URL ++ bidder` replaced by the stored data URI; when no
entry exists, the first occurrence of the placeholder is replaced by the
literal text `undefined`, so the document passes through unchanged only
when the placeholder does not occur in it; and a failed fetch yields
nothing. -/
theorem getLocalCachedBidWithGam_subst (hb_bidder hb_adid doc : String)
    (cache : LocalCache) :
    (∀ uri, cache (hb_bidder ++ "_" ++ hb_adid) = some uri →
        getLocalCachedBidWithGam hb_bidder hb_adid (some doc) cache
          = some (replaceFirst doc (LOCAL_CACHE_MOCK_URL ++ hb_bidder) uri))
      ∧ (cache (hb_bidder ++ "_" ++ hb_adid) = none →
          getLocalCachedBidWithGam hb_bidder hb_adid (some doc) cache
            = some (replaceFirst doc (LOCAL_CACHE_MOCK_URL ++ hb_bidder)
                "undefined"))
      ∧ (∀ a b r : String,
          doc = a ++ (LOCAL_CACHE_MOCK_URL ++ hb_bidder) ++ b →
          ¬ (LOCAL_CACHE_MOCK_URL ++ hb_bidder).data
              <:+: (a.data ++ (LOCAL_CACHE_MOCK_URL ++ hb_bidder).data).dropLast →
          replaceFirst doc (LOCAL_CACHE_MOCK_URL ++ hb_bidder) r = a ++ r ++ b)
      ∧ (∀ r : String,
          ¬ (LOCAL_CACHE_MOCK_URL ++ hb_bidder).data <:+: doc.data →
          replaceFirst doc (LOCAL_CACHE_MOCK_URL ++ hb_bidder) r = doc)
      ∧ getLocalCachedBidWithGam hb_bidder hb_adid none cache = none := by
  refine ⟨?_, ?_, ?_, ?_, rfl⟩
  · intro uri hu
    simp [getLocalCachedBidWithGam, hu, jsReplace, jsToString]
  · intro hu
    simp [getLocalCachedBidWithGam, hu, jsReplace, jsToString]
  · intro a b r hdoc hno
    subst hdoc
    have hdata : (a ++ (LOCAL_CACHE_MOCK_URL ++ hb_bidder) ++ b).data
        = a.data ++ ((LOCAL_CACHE_MOCK_URL ++ hb_bidder).data ++ b.data) := by
      simp [String.data_append, List.append_assoc]
    show String.mk (replaceFirstAux (LOCAL_CACHE_MOCK_URL ++ hb_bidder).data
        r.data (a ++ (LOCAL_CACHE_MOCK_URL ++ hb_bidder) ++ b).data)
      = a ++ r ++ b
    rw [hdata, replaceFirstAux_append _ _ _ _ hno]
    have hout : (a ++ r ++ b).data = a.data ++ (r.data ++ b.data) := by
      simp [String.data_append, List.append_assoc]
    rw [← hout]
  · intro r hno
    show String.mk (replaceFirstAux (LOCAL_CACHE_MOCK_URL ++ hb_bidder).data
        r.data doc.data) = doc
    rw [replaceFirstAux_no_match _ _ _ hno]

/-- Witness for C8 (amended): storing `"du"` for `(pub, ad1)` and
resolving a document with one placeholder occurrence substitutes it. -/
theorem getLocalCachedBidWithGam_subst_witness :
    (mapSet ("pub" ++ "_" ++ "ad1") "du" emptyLocalCache)
        ("pub" ++ "_" ++ "ad1") = some "du"
      ∧ getLocalCachedBidWithGam "pub" "ad1"
          (some ("A" ++ (LOCAL_CACHE_MOCK_URL ++ "pub") ++ "B"))
          (mapSet ("pub" ++ "_" ++ "ad1") "du" emptyLocalCache)
        = some ("A" ++ "du" ++ "B") := by
  refine ⟨by decide, ?_⟩
  have h1 := (getLocalCachedBidWithGam_subst "pub" "ad1"
    ("A" ++ (LOCAL_CACHE_MOCK_URL ++ "pub") ++ "B")
    (mapSet ("pub" ++ "_" ++ "ad1") "du" emptyLocalCache)).1 "du" (by decide)
  have h3 := (getLocalCachedBidWithGam_subst "pub" "ad1"
    ("A" ++ (LOCAL_CACHE_MOCK_URL ++ "pub") ++ "B")
    (mapSet ("pub" ++ "_" ++ "ad1") "du" emptyLocalCache)).2.2.1
    "A" "B" "du" rfl (by decide)
  rw [h1, h3]

/-- C9: After the expiry handler runs for an auction's received bids,
every local-cache entry keyed by one of those bids is absent, and every
entry under a key not belonging to those bids is unchanged. -/
theorem cleanupHandler_frame (bids : List Bid) (cache : LocalCache) :
    (∀ bid ∈ bids, cleanupHandler bids cache (getLocalCacheBidId bid) = none)
      ∧ ∀ k, k ∉ bids.map getLocalCacheBidId →
          cleanupHandler bids cache k = cache k := by
  constructor
  · intro bid hb
    rw [cleanupHandler_apply]
    exact if_pos (List.mem_map_of_mem _ hb)
  · intro k hk
    rw [cleanupHandler_apply]
    exact if_neg hk

/-- C4: With maximum batch size `k ≥ 1`, no batch in the accumulator ever
holds more than `k` entries (for any timeout and submission sequence);
and for `N ≥ 1` bids submitted within one debounce window with delay
`t > 0`, nothing is flushed during the window and the window's flush
issues exactly `⌈N / k⌉ = (N + k - 1) / k` store calls, each for a batch
of at most `k` entries. -/
theorem batchingCache_bounds (k : Nat) (hk : 1 ≤ k) (t : Int) (ht : 0 < t)
    (es : List BatchEntry) (hN : 1 ≤ es.length) :
    (∀ (tq : Int) (esq : List BatchEntry) b,
        b ∈ (submitMany k tq esq).1.batches → b.length ≤ k)
      ∧ (submitMany k t es).2 = []
      ∧ (flushWindow (submitMany k t es).1).2.length = (es.length + k - 1) / k
      ∧ ∀ b ∈ (flushWindow (submitMany k t es).1).2, b.length ≤ k := by
  obtain ⟨F', cur', heq, hFle, hcle, hcount, hposc⟩ :=
    foldl_pushEntry_inv k hk es [] [] (by simp) (by simp)
  simp only [List.nil_append] at heq
  simp only [List.length_nil, Nat.mul_zero, Nat.zero_add] at hcount
  have hcur1 : 1 ≤ cur'.length :=
    hposc (Or.inl (List.length_pos.mp (by omega)))
  have hbatches : (submitMany k t es).1.batches = F' ++ [cur'] := by
    have hb : (submitMany k t es).1.batches = es.foldl (pushEntry k) [[]] :=
      (submitManyFrom_pos k t ht es [[]] false []).1
    rw [hb, heq]
  have hdiv : (es.length + k - 1) / k = F'.length + 1 := by
    have hmul : k * (F'.length + 1) = k * F'.length + k := by ring
    have h1 : es.length + k - 1 = k * (F'.length + 1) + (cur'.length - 1) := by
      rw [hmul]
      omega
    rw [h1, Nat.mul_add_div (by omega : 0 < k),
      Nat.div_eq_of_lt (by omega : cur'.length - 1 < k)]
  refine ⟨?_, ?_, ?_, ?_⟩
  · intro tq esq b hb
    refine submitManyFrom_allLe k hk tq esq initState [] ?_ b hb
    intro b' hb'
    have : b' = ([] : List BatchEntry) := by simpa [initState] using hb'
    simp [this]
  · exact (submitManyFrom_pos k t ht es [[]] false []).2
  · rw [show (flushWindow (submitMany k t es).1).2
        = (submitMany k t es).1.batches from rfl, hbatches, hdiv]
    simp
  · intro b hb
    rw [show (flushWindow (submitMany k t es).1).2
        = (submitMany k t es).1.batches from rfl, hbatches] at hb
    rcases List.mem_append.mp hb with h1 | h2
    · exact hFle b h1
    · have : b = cur' := by simpa using h2
      rw [this]
      exact hcle

/-- Witness for C4: three submissions at batch size 2, delay 5, flush as
two store calls. -/
theorem batchingCache_bounds_witness :
    (1 ≤ 2) ∧ ((0 : Int) < 5)
      ∧ 1 ≤ ([({} : BatchEntry), {}, {}]).length
      ∧ ((∀ (tq : Int) (esq : List BatchEntry) b,
            b ∈ (submitMany 2 tq esq).1.batches → b.length ≤ 2)
        ∧ (submitMany 2 5 [({} : BatchEntry), {}, {}]).2 = []
        ∧ (flushWindow (submitMany 2 5 [({} : BatchEntry), {}, {}]).1).2.length
            = (([({} : BatchEntry), {}, {}]).length + 2 - 1) / 2
        ∧ ∀ b ∈ (flushWindow (submitMany 2 5 [({} : BatchEntry), {}, {}]).1).2,
            b.length ≤ 2) :=
  ⟨by decide, by decide, by decide,
    batchingCache_bounds 2 (by decide) 5 (by decide)
      [({} : BatchEntry), {}, {}] (by decide)⟩

/-- C10: an absent (or non-numeric) `cache.batchSize` defaults to 1 and
an absent `cache.batchTimeout` to 0; positive values are taken as-is and
non-positive ones fall back to the defaults; and with those defaults
(batch size 1, delay 0) every submission synchronously flushes exactly
one batch holding just the submitted entry. -/
theorem cacheConfig_defaults (es : List BatchEntry) :
    effBatchSize none = 1
      ∧ effBatchTimeout none = 0
      ∧ (∀ n : Int, 0 < n → effBatchSize (some n) = n)
      ∧ (∀ n : Int, n ≤ 0 → effBatchSize (some n) = 1)
      ∧ (∀ n : Int, 0 < n → effBatchTimeout (some n) = n)
      ∧ (∀ n : Int, n ≤ 0 → effBatchTimeout (some n) = 0)
      ∧ submitMany 1 0 es = (initState, es.map (fun e => [e])) := by
  refine ⟨rfl, rfl, ?_, ?_, ?_, ?_, ?_⟩
  · intro n hn
    simp only [effBatchSize]
    rw [if_pos hn]
  · intro n hn
    simp only [effBatchSize]
    rw [if_neg (by omega : ¬ n > 0)]
  · intro n hn
    simp only [effBatchTimeout]
    rw [if_pos hn]
  · intro n hn
    simp only [effBatchTimeout]
    rw [if_neg (by omega : ¬ n > 0)]
  · simpa using submitManyFrom_sync es []

/-- Witness for C10: the defaults with one submitted bid. -/
theorem cacheConfig_defaults_witness :
    effBatchSize none = 1 ∧ effBatchTimeout none = 0
      ∧ submitMany 1 0 [({} : BatchEntry)]
        = (initState, [[({} : BatchEntry)]]) :=
  ⟨(cacheConfig_defaults []).1, (cacheConfig_defaults []).2.1,
    (cacheConfig_defaults [({} : BatchEntry)]).2.2.2.2.2.2⟩

/-- Witness for C9: expiring an auction that received one bid removes
that bid's entry and leaves an unrelated key's entry intact. -/
theorem cleanupHandler_frame_witness :
    cleanupHandler [{ bidderCode := "pb", adId := "a1" }]
        (mapSet "x_y" "dv" (mapSet "pb_a1" "du" emptyLocalCache))
        (getLocalCacheBidId { bidderCode := "pb", adId := "a1" }) = none
      ∧ cleanupHandler [{ bidderCode := "pb", adId := "a1" }]
          (mapSet "x_y" "dv" (mapSet "pb_a1" "du" emptyLocalCache)) "x_y"
        = (mapSet "x_y" "dv" (mapSet "pb_a1" "du" emptyLocalCache)) "x_y" := by
  constructor
  · exact (cleanupHandler_frame _ _).1 _ (by simp)
  · exact (cleanupHandler_frame _ _).2 "x_y" (by decide)

/-- Witness for C7: a transport failure on a one-entry batch. -/
theorem storeBatch_malformed_discards_witness :
    ((match (TransportOutcome.failure "404" "oops") with
        | .failure _ _ => true
        | .success (.parseFail _) => true
        | .success (.parsed none) => true
        | .success (.parsed (some _)) => false) = true)
      ∧ ((shimResult (.failure "404" "oops")).1.isSome = true
        ∧ (shimResult (.failure "404" "oops")).2 = []
        ∧ (storeBatch {} [{}] (.failure "404" "oops")).bids
            = [({} : BatchEntry)].map BatchEntry.bidResponse
        ∧ (storeBatch {} [{}] (.failure "404" "oops")).admitted = []
        ∧ (storeBatch {} [{}] (.failure "404" "oops")).callbacks = []
        ∧ (storeBatch {} [{}] (.failure "404" "oops")).errors ≠ []) :=
  ⟨by decide, storeBatch_malformed_discards {} [{}] (.failure "404" "oops") (by decide)⟩

end VideoCache
